import Mathlib

/-
Verification of the sotopia experimental conversation moderator
(sotopia/experimental/agents/moderator.py) and the agent action data model
(examples/experimental/minimalist_demo/llm_colab_agents.py).

The moderator is embedded shallowly: its mutable per-session state becomes an
explicit record, Python dicts become insertion-ordered association lists, and
the async `aact` handler becomes a pure step function returning the new state
together with what was emitted.  Floats never undergo arithmetic here (only
the literal 0.0 appears), so reward values are modelled as rationals.
-/

namespace Sotopia

/-- Action types understood by the agents and the moderator, exactly the tags
matched in `AgentAction.to_natural_language`
(examples/experimental/minimalist_demo/llm_colab_agents.py); the constructor
`nonverbal` stands for the source tag "non-verbal communication". -/
inductive ActionType where
  | none
  | speak
  | thought
  | browse
  | run
  | read
  | write
  | nonverbal
  | action
  | leave
deriving DecidableEq, Repr

/-- The `AgentAction` pydantic model of llm_colab_agents.py: name of the acting
agent, the action tag, a free-form argument, and an optional file path. -/
structure AgentAction where
  agent_name : String
  action_type : ActionType
  argument : String
  path : Option String
deriving DecidableEq, Repr

/-- The rendering rule `AgentAction.to_natural_language` of
llm_colab_agents.py, a pure function of `(action_type, argument)`. -/
def AgentAction.to_natural_language (a : AgentAction) : String :=
  match a.action_type with
  | ActionType.none => "did nothing"
  | ActionType.speak => "said: \"" ++ a.argument ++ "\""
  | ActionType.thought => "thought: \"" ++ a.argument ++ "\""
  | ActionType.browse => "browsed: \"" ++ a.argument ++ "\""
  | ActionType.run => "ran: \"" ++ a.argument ++ "\""
  | ActionType.read => "read: \"" ++ a.argument ++ "\""
  | ActionType.write => "wrote: \"" ++ a.argument ++ "\""
  | ActionType.nonverbal => "[non-verbal communication] " ++ a.argument
  | ActionType.action => "[action] " ++ a.argument
  | ActionType.leave => "left the conversation"

/-- Modelled from the spec: the `Observation` data model
(sotopia/experimental/agents/datamodels.py is absent from src/); fields per
spec section 3 and per every construction site in moderator.py. -/
structure Observation where
  agent_name : String
  last_turn : String
  turn_number : Int
  available_actions : List ActionType
deriving DecidableEq, Repr

/-- A reward slot of an `EpisodeLog`.  Python is dynamically typed, so a slot
may hold a scalar or a whole vector; both arise in this code base. -/
inductive RVal where
  | scalar (v : Rat)
  | vec (vs : List Rat)
deriving DecidableEq, Repr

/-- Modelled from the spec: the `EpisodeLog` record
(sotopia/experimental/agents/logs.py is absent from src/); fields per spec
section 3 and per the constructor call in `Moderator.save`. -/
structure EpisodeLog where
  environment : String
  agents : List String
  tag : String
  models : List String
  messages : List (List (String × String × String))
  rewards : List RVal
  rewards_prompt : String
deriving DecidableEq, Repr

/-- Modelled from the spec: `DummyEvaluator.evaluate`
(sotopia/experimental/agents/evaluators.py is absent from src/); per spec
sections 4.4 and 6 it is the trivial implementation of
`evaluate(episode) -> (rewards, rewards_prompt)` returning a zero-filled
reward vector (one zero per agent of the episode) and an empty prompt. -/
def DummyEvaluator.evaluate (e : EpisodeLog) : List Rat × String :=
  (List.replicate e.agents.length (0 : Rat), "")

/-- Python dict update `d[k] = v` on an insertion-ordered association list:
an existing key keeps its position, a new key is appended at the end. -/
def setA {α : Type} (l : List (String × α)) (k : String) (v : α) :
    List (String × α) :=
  match l with
  | [] => [(k, v)]
  | p :: rest => if p.1 = k then (k, v) :: rest else p :: setA rest k v

/-- Python dict read `d.get(k)` on an association list. -/
def lookupA {α : Type} (l : List (String × α)) (k : String) : Option α :=
  match l with
  | [] => Option.none
  | p :: rest => if p.1 = k then Option.some p.2 else lookupA rest k

/-- The source check `True not in self.agents_awake.values()`: every recorded
flag is `False`. -/
def allAsleep (l : List (String × Bool)) : Bool :=
  l.all (fun p => !p.2)

/-- The `action_order` literal of `Moderator.__init__`. -/
inductive ActionOrder where
  | simultaneous
  | roundRobin
  | random
deriving DecidableEq, Repr

/-- The session state owned by the moderator: every mutable attribute set in
`Moderator.__init__` that the turn-taking logic reads or writes.  Transport
plumbing (redis connection, queues, asyncio tasks) is not part of the state
machine and is left out. -/
structure ModeratorState where
  agent_mapping : List (String × String)
  tag : String
  action_order : ActionOrder
  available_actions : List ActionType
  turn_number : Nat
  max_turns : Nat
  current_agent_index : Nat
  scenario : String
  agents : List String
  agents_pk : List (String × String)
  agent_models : List (String × String)
  agents_awake : List (String × Bool)
  all_agents_awake : Bool
  message_history : List (List (String × String × String))
  push_to_db : Bool
  will_eval : Bool
  use_pk_value : Bool
  evaluator : String
deriving DecidableEq, Repr

/-- The field initialisation of `Moderator.__init__` (moderator.py lines
65-89): turn and index counters start at 0, `agents` is the value list of the
channel-to-name mapping, every agent starts asleep, and the transcript starts
with the scenario entry. -/
def initState (scenario : String) (agent_mapping : List (String × String))
    (tag : String) (action_order : ActionOrder)
    (available_actions : List ActionType) (max_turns : Nat)
    (push_to_db will_eval use_pk_value : Bool) (evaluator : String) :
    ModeratorState :=
  { agent_mapping := agent_mapping
    tag := tag
    action_order := action_order
    available_actions := available_actions
    turn_number := 0
    max_turns := max_turns
    current_agent_index := 0
    scenario := scenario
    agents := agent_mapping.map Prod.snd
    agents_pk := []
    agent_models := []
    agents_awake := (agent_mapping.map Prod.snd).map (fun n => (n, false))
    all_agents_awake := false
    message_history := [[("Environment", "Environment", scenario)]]
    push_to_db := push_to_db
    will_eval := will_eval
    use_pk_value := use_pk_value
    evaluator := evaluator }

/-- `Moderator.__init__` as a fallible constructor: any `action_order` other
than round-robin raises `NotImplementedError` (moderator.py lines 91-96),
before any session traffic flows. -/
def mkModerator (scenario : String) (agent_mapping : List (String × String))
    (tag : String) (action_order : ActionOrder)
    (available_actions : List ActionType) (max_turns : Nat)
    (push_to_db will_eval use_pk_value : Bool) (evaluator : String) :
    Except String ModeratorState :=
  if action_order = ActionOrder.roundRobin then
    Except.ok (initState scenario agent_mapping tag action_order
      available_actions max_turns push_to_db will_eval use_pk_value evaluator)
  else
    Except.error "the selected action order is currently not implemented"

/-- One handshake reply drained by `Moderator.booting` (moderator.py lines
164-169).  In the source the persistent id and model name travel as a JSON
`argument`; the decoded payload is modelled structurally. -/
structure HandshakeReply where
  agent_name : String
  pk : String
  model_name : String
deriving DecidableEq, Repr

/-- Processing of one drained handshake reply (moderator.py lines 165-169):
mark the sender awake and record its persistent id and model name. -/
def processReply (s : ModeratorState) (r : HandshakeReply) : ModeratorState :=
  { s with
    agents_awake := setA s.agents_awake r.agent_name true
    agents_pk := setA s.agents_pk r.agent_name r.pk
    agent_models := setA s.agent_models r.agent_name r.model_name }

/-- Draining a queue of handshake replies in arrival order. -/
def processReplies (s : ModeratorState) : List HandshakeReply → ModeratorState
  | [] => s
  | r :: rest => processReplies (processReply s r) rest

/-- The handshake completion check of `Moderator.booting` (line 170):
`False not in self.agents_awake.values()`. -/
def bootComplete (s : ModeratorState) : Bool :=
  s.agents_awake.all (fun p => p.2)

/-- The turn-0 broadcast sent by `Moderator.booting` once all agents are awake
(moderator.py lines 174-189): every mapped channel gets an observation with
`last_turn = "conversation start"`, `turn_number = 0`, and the full action set
exactly for the first configured agent. -/
def bootBatch (s : ModeratorState) : List (String × Observation) :=
  s.agent_mapping.map (fun p =>
    (p.1,
      { agent_name := "moderator"
        last_turn := "conversation start"
        turn_number := 0
        available_actions :=
          if p.2 = s.agents.getD 0 "" then s.available_actions
          else [ActionType.none] }))

/-- The state change accompanying the turn-0 broadcast: the awake event fires
(line 171) and `current_agent_index` is incremented (line 190). -/
def finishBoot (s : ModeratorState) : ModeratorState :=
  { s with
    all_agents_awake := true
    current_agent_index := s.current_agent_index + 1 }

/-- `Moderator.save` (moderator.py lines 217-232): build the `EpisodeLog` from
the accumulated state, rewards zero-filled with one entry per configured
agent. -/
def save (s : ModeratorState) : EpisodeLog :=
  { environment := s.scenario
    agents := s.agents_pk.map Prod.snd
    tag := s.tag
    models := s.agent_models.map Prod.snd
    messages := s.message_history
    rewards := List.replicate s.agents.length (RVal.scalar 0)
    rewards_prompt := "" }

/-- `Moderator.eval` (moderator.py lines 204-215): under the DummyEvaluator
the reward pair is unpacked and the rewards field is set to the singleton
list `[reward]` containing the whole reward vector of the evaluator. -/
def evalEpisode (s : ModeratorState) (e : EpisodeLog) : EpisodeLog :=
  if s.evaluator = "DummyEvaluator" then
    { e with
      rewards := [RVal.vec (DummyEvaluator.evaluate e).1]
      rewards_prompt := (DummyEvaluator.evaluate e).2 }
  else e

/-- `Moderator.wrap_up_and_stop` (moderator.py lines 192-202), restricted to
its episode result: save, then evaluate when `will_eval` is set.  The shutdown
broadcast is a transport effect with no bearing on the session state. -/
def wrapUp (s : ModeratorState) : EpisodeLog :=
  if s.will_eval then evalEpisode s (save s) else save s

/-- What one `Moderator.aact` call produced besides the new state, mirroring
the four return sites of the source: wrap-up ran and returned `None`
(terminated), the `none`-action early `None`, the max-turns broadcast
(windDown, lines 256-266), or the regular per-agent broadcast. -/
inductive AactResult where
  | terminated (epilog : EpisodeLog)
  | silent
  | windDown (observations : List (String × Observation))
  | broadcast (observations : List (String × Observation))
deriving DecidableEq, Repr

/-- The max-turns broadcast of `Moderator.aact` (lines 256-266): every mapped
channel gets the scenario as `last_turn`, `turn_number + 1`, and `leave` as
the only available action. -/
def windDownBatch (s : ModeratorState) : List (String × Observation) :=
  s.agent_mapping.map (fun p =>
    (p.1,
      { agent_name := "moderator"
        last_turn := s.scenario
        turn_number := (s.turn_number : Int) + 1
        available_actions := [ActionType.leave] }))

/-- The regular per-agent broadcast of `Moderator.aact` (lines 268-282), built
after the turn counter was advanced and before the actor index rotates: the
agent at `current_agent_index` gets the full action set, everyone else only
`none`.  The source iterates the output channels and maps each to its agent
via `agent_mapping`; this iterates `agent_mapping` directly. -/
def regularBatch (s : ModeratorState) (a : AgentAction) :
    List (String × Observation) :=
  s.agent_mapping.map (fun p =>
    (p.1,
      { agent_name := p.2
        last_turn := a.to_natural_language
        turn_number := (s.turn_number : Int)
        available_actions :=
          if s.action_order = ActionOrder.roundRobin ∧
              p.2 = s.agents.getD s.current_agent_index "" then
            s.available_actions
          else [ActionType.none] }))

/-- `Moderator.aact` (moderator.py lines 234-285) as a pure step function.
A `leave` marks the sender asleep and, when nobody remains awake, wrap-up
runs; a `none` returns early with no state change; otherwise the rendered
action is appended to the transcript, and either the turn counter advances
and the regular broadcast goes out with the actor index rotating, or (turn
counter at the maximum) the wind-down broadcast goes out with no counter
advance. -/
def aact (s : ModeratorState) (a : AgentAction) :
    ModeratorState × AactResult :=
  let s1 :=
    if a.action_type = ActionType.leave then
      { s with agents_awake := setA s.agents_awake a.agent_name false }
    else s
  if a.action_type = ActionType.leave ∧ allAsleep s1.agents_awake then
    (s1, AactResult.terminated (wrapUp s1))
  else if a.action_type = ActionType.none then
    (s1, AactResult.silent)
  else
    let s2 := { s1 with
      message_history := s1.message_history ++
        [[(a.agent_name, "Environment", a.to_natural_language)]] }
    if s2.turn_number < s2.max_turns then
      let s3 := { s2 with turn_number := s2.turn_number + 1 }
      let batch := regularBatch s3 a
      let s4 := { s3 with
        current_agent_index := (s3.current_agent_index + 1) % s3.agents.length }
      (s4, AactResult.broadcast batch)
    else
      (s2, AactResult.windDown (windDownBatch s2))

/-- The single-consumer event loop `_task_scheduler`: dequeued actions are fed
to `aact` one at a time, in arrival order. -/
def runActions : ModeratorState → List AgentAction →
    ModeratorState × List AactResult
  | s, [] => (s, [])
  | s, a :: rest =>
    let p := aact s a
    let q := runActions p.1 rest
    (q.1, p.2 :: q.2)

/-- Number of wrap-up runs among the results of a session run. -/
def terminatedCount (rs : List AactResult) : Nat :=
  (rs.filter (fun r =>
    match r with
    | AactResult.terminated _ => true
    | _ => false)).length

/-- The episode built by the last step of a run, when that step terminated the
session. -/
def finalEpilog (rs : List AactResult) : Option EpisodeLog :=
  match rs.getLast? with
  | Option.some (AactResult.terminated e) => Option.some e
  | _ => Option.none

/-- Whether `a` is a `leave` action sent by `n`. -/
def isLeaveBy (n : String) (a : AgentAction) : Bool :=
  a.action_type == ActionType.leave && a.agent_name == n

/-- Concrete two-participant configuration used by witnesses: agents "A" and
"B" on channels "chA"/"chB", max_turns 2, the default action set of the source. -/
def defaultActions : List ActionType :=
  [ActionType.none, ActionType.speak, ActionType.nonverbal,
   ActionType.action, ActionType.leave]

def sampleInit : ModeratorState :=
  initState "test scenario" [("chA", "A"), ("chB", "B")] "" ActionOrder.roundRobin
    defaultActions 2 false false false "DummyEvaluator"

def sampleReplies : List HandshakeReply :=
  [{ agent_name := "A", pk := "pkA", model_name := "modelA" },
   { agent_name := "B", pk := "pkB", model_name := "modelB" }]

def sampleBooted : ModeratorState :=
  finishBoot (processReplies sampleInit sampleReplies)

def sampleBootedEval : ModeratorState :=
  finishBoot (processReplies { sampleInit with will_eval := true } sampleReplies)

def speakHi : AgentAction :=
  { agent_name := "A", action_type := ActionType.speak, argument := "hi",
    path := Option.none }

def leaveA : AgentAction :=
  { agent_name := "A", action_type := ActionType.leave, argument := "",
    path := Option.none }

def leaveB : AgentAction :=
  { agent_name := "B", action_type := ActionType.leave, argument := "",
    path := Option.none }

def noneAct : AgentAction :=
  { agent_name := "A", action_type := ActionType.none, argument := "",
    path := Option.none }

/-- Reading back a key just written by a dict update. -/
theorem lookupA_setA {α : Type} (l : List (String × α)) (k : String) (v : α) :
    lookupA (setA l k v) k = Option.some v := by
  induction l with
  | nil => simp [setA, lookupA]
  | cons p rest ih =>
    by_cases h : p.1 = k
    · simp [setA, h, lookupA]
    · simp [setA, h, lookupA, ih]

/-- Every branch of `aact` leaves the turn counter alone or increments it. -/
theorem turn_mono (t : ModeratorState) (b : AgentAction) :
    t.turn_number ≤ ((aact t b).1).turn_number := by
  unfold aact
  dsimp only
  repeat' split
  all_goals dsimp only
  all_goals omega

/-- A `none` action is a perfect no-op: same state, nothing emitted. -/
theorem aact_none (s : ModeratorState) (a : AgentAction)
    (ha : a.action_type = ActionType.none) :
    aact s a = (s, AactResult.silent) := by
  unfold aact
  simp [ha]

/-- A substantive (non-`none`, non-`leave`) action appends exactly one rendered
entry to the transcript, in both the regular and the wind-down branch. -/
theorem history_append (s : ModeratorState) (a : AgentAction)
    (hl : a.action_type ≠ ActionType.leave) (hn : a.action_type ≠ ActionType.none) :
    ((aact s a).1).message_history =
      s.message_history ++
        [[(a.agent_name, "Environment", a.to_natural_language)]] := by
  unfold aact
  simp only [hl, hn, false_and, if_false, ite_false]
  split <;> rfl

/-- A substantive action arriving while the counter sits at the maximum takes
the wind-down branch: transcript still appended, counter untouched, wind-down
broadcast emitted. -/
theorem aact_at_max (s : ModeratorState) (b : AgentAction)
    (hmax : s.max_turns ≤ s.turn_number)
    (hn : b.action_type ≠ ActionType.none) (hl : b.action_type ≠ ActionType.leave) :
    aact s b = ({ s with message_history := s.message_history ++
        [[(b.agent_name, "Environment", b.to_natural_language)]] },
      AactResult.windDown (windDownBatch { s with
        message_history := s.message_history ++
          [[(b.agent_name, "Environment", b.to_natural_language)]] })) := by
  unfold aact
  simp [hl, hn, Nat.not_lt.mpr hmax]

/-- Running any sequence of substantive actions from a counter already at the
maximum never moves the counter (nor the maximum). -/
theorem run_at_max_turn (acts : List AgentAction) (s : ModeratorState)
    (hmax : s.max_turns ≤ s.turn_number)
    (hacts : ∀ b ∈ acts,
      b.action_type ≠ ActionType.none ∧ b.action_type ≠ ActionType.leave) :
    ((runActions s acts).1).turn_number = s.turn_number ∧
    ((runActions s acts).1).max_turns = s.max_turns := by
  induction acts generalizing s with
  | nil => exact ⟨rfl, rfl⟩
  | cons a rest ih =>
    have ha := hacts a (by simp)
    have hstep := aact_at_max s a hmax ha.1 ha.2
    have hrest := ih { s with message_history := s.message_history ++
        [[(a.agent_name, "Environment", a.to_natural_language)]] }
      hmax (fun b hb => hacts b (by simp [hb]))
    simpa [runActions, hstep] using hrest

/-- Running a session on a concatenation is running it on the pieces in
order. -/
theorem runActions_append (xs ys : List AgentAction) (s : ModeratorState) :
    (runActions s (xs ++ ys)).1 = (runActions (runActions s xs).1 ys).1 := by
  induction xs generalizing s with
  | nil => rfl
  | cons a rest ih => simp [runActions, ih]

/-- A run consisting solely of `none` actions is the identity on the state. -/
theorem runActions_none_state (ns : List AgentAction) (s : ModeratorState)
    (h : ∀ b ∈ ns, b.action_type = ActionType.none) :
    (runActions s ns).1 = s := by
  induction ns generalizing s with
  | nil => rfl
  | cons a rest ih =>
    have := aact_none s a (h a (by simp))
    simp only [runActions, this]
    exact ih s (fun b hb => h b (by simp [hb]))

/-- C9: constructing a moderator with an `action_order` other than round-robin
(simultaneous or random) fails at construction time with a
`NotImplementedError`, before any session traffic flows; constructing with
round-robin succeeds and yields the initial session state. -/
theorem c9_action_order_rejected (scenario tag evaluator : String)
    (mapping : List (String × String)) (acts : List ActionType) (mt : Nat)
    (pdb we upk : Bool) :
    mkModerator scenario mapping tag ActionOrder.simultaneous acts mt pdb we upk
        evaluator
      = Except.error "the selected action order is currently not implemented"
    ∧ mkModerator scenario mapping tag ActionOrder.random acts mt pdb we upk
        evaluator
      = Except.error "the selected action order is currently not implemented"
    ∧ mkModerator scenario mapping tag ActionOrder.roundRobin acts mt pdb we upk
        evaluator
      = Except.ok (initState scenario mapping tag ActionOrder.roundRobin acts mt
          pdb we upk evaluator) :=
  ⟨rfl, rfl, rfl⟩

/-- C2 (amended): when the boot handshake completes under round-robin order,
every mapped participant receives an observation with `turn_number` 0 whose
`last_turn` is the fixed string "conversation start" (not the scenario text),
where only the first participant in configured order gets the full
`available_actions` set and everyone else only `none`. -/
theorem c2_first_turn_broadcast (s : ModeratorState) (ch name : String)
    (h : (ch, name) ∈ s.agent_mapping) :
    ∃ o, (ch, o) ∈ bootBatch s ∧ o.turn_number = 0 ∧
      o.last_turn = "conversation start" ∧
      o.available_actions =
        (if name = s.agents.getD 0 "" then s.available_actions
         else [ActionType.none]) :=
  ⟨_, List.mem_map_of_mem _ h, rfl, rfl, rfl⟩

/-- C2 counterexample: on a concrete booted session with scenario
"test scenario", every turn-0 observation carries last_turn
"conversation start", which is not the scenario text — so the claim that
last_turn is the scenario text is false on the code. -/
theorem c2_last_turn_counterexample :
    sampleBooted.scenario = "test scenario"
    ∧ (bootBatch sampleBooted).map (fun p => p.2.last_turn) =
        ["conversation start", "conversation start"]
    ∧ ("conversation start" : String) ≠ sampleBooted.scenario :=
  ⟨rfl, rfl, by decide⟩

/-- C2 witness: the amended statement evaluated on the concrete booted
session, channel "chA" of participant "A". -/
theorem c2_first_turn_broadcast_witness :
    ∃ o, ("chA", o) ∈ bootBatch sampleBooted ∧ o.turn_number = 0 ∧
      o.last_turn = "conversation start" ∧
      o.available_actions =
        (if "A" = sampleBooted.agents.getD 0 "" then sampleBooted.available_actions
         else [ActionType.none]) :=
  c2_first_turn_broadcast sampleBooted "chA" "A" (by decide)

/-- C3 (amended): the turn counter is monotonically non-decreasing under every
step, and the first substantive action (a `speak`) occupies index 1 of the
transcript — index 0 holds the initial (Environment, Environment, scenario)
entry written at construction. -/
theorem c3_transcript_monotone_first_index (s : ModeratorState) (a : AgentAction)
    (hhist : s.message_history = [[("Environment", "Environment", s.scenario)]])
    (hspeak : a.action_type = ActionType.speak) :
    (∀ (t : ModeratorState) (b : AgentAction),
        t.turn_number ≤ ((aact t b).1).turn_number)
    ∧ ((aact s a).1).message_history.get? 0 =
        Option.some [("Environment", "Environment", s.scenario)]
    ∧ ((aact s a).1).message_history.get? 1 =
        Option.some [(a.agent_name, "Environment",
          "said: \"" ++ a.argument ++ "\"")] := by
  have happ := history_append s a (by simp [hspeak]) (by simp [hspeak])
  have hnl : a.to_natural_language = "said: \"" ++ a.argument ++ "\"" := by
    unfold AgentAction.to_natural_language
    rw [hspeak]
  refine ⟨turn_mono, ?_, ?_⟩ <;> rw [happ, hhist, hnl] <;> rfl

/-- C3 counterexample: on the concrete booted session, after the first
substantive action speak("hi") by A the transcript entry at index 0 is the
scenario entry, not the utterance of A. -/
theorem c3_index_zero_counterexample :
    ((aact sampleBooted speakHi).1).message_history.get? 0 =
      Option.some [("Environment", "Environment", "test scenario")]
    ∧ ((aact sampleBooted speakHi).1).message_history.get? 0 ≠
        Option.some [("A", "Environment", "said: \"hi\"")]
    ∧ ((aact sampleBooted speakHi).1).message_history.get? 1 =
        Option.some [("A", "Environment", "said: \"hi\"")] := by
  refine ⟨rfl, by decide, rfl⟩

/-- C3 witness: the amended statement evaluated on the concrete booted session
and the action speak("hi") by A. -/
theorem c3_transcript_monotone_first_index_witness :
    (∀ (t : ModeratorState) (b : AgentAction),
        t.turn_number ≤ ((aact t b).1).turn_number)
    ∧ ((aact sampleBooted speakHi).1).message_history.get? 0 =
        Option.some [("Environment", "Environment", sampleBooted.scenario)]
    ∧ ((aact sampleBooted speakHi).1).message_history.get? 1 =
        Option.some [(speakHi.agent_name, "Environment",
          "said: \"" ++ speakHi.argument ++ "\"")] :=
  c3_transcript_monotone_first_index sampleBooted speakHi (by decide) (by decide)

/-- C4: a substantive action processed while the turn counter has already
reached the configured maximum produces a broadcast to every mapped
participant whose only available action is `leave`, and neither this action
nor any subsequent such action increments the counter. -/
theorem c4_wind_down (s : ModeratorState) (a : AgentAction)
    (acts : List AgentAction)
    (hmax : s.max_turns ≤ s.turn_number)
    (hna : a.action_type ≠ ActionType.none) (hla : a.action_type ≠ ActionType.leave)
    (hacts : ∀ b ∈ acts,
      b.action_type ≠ ActionType.none ∧ b.action_type ≠ ActionType.leave) :
    (aact s a).2 = AactResult.windDown (s.agent_mapping.map (fun p =>
        (p.1, { agent_name := "moderator", last_turn := s.scenario,
                turn_number := (s.turn_number : Int) + 1,
                available_actions := [ActionType.leave] })))
    ∧ ((aact s a).1).turn_number = s.turn_number
    ∧ ((runActions s (a :: acts)).1).turn_number = s.turn_number := by
  have hstep := aact_at_max s a hmax hna hla
  refine ⟨by rw [hstep]; simp [windDownBatch], by rw [hstep], ?_⟩
  exact (run_at_max_turn (a :: acts) s hmax
    (fun b hb => by
      rcases List.mem_cons.mp hb with h | h
      · exact h ▸ ⟨hna, hla⟩
      · exact hacts b h)).1

/-- C4 witness: the statement evaluated on the concrete booted session driven
to the maximum turn count by two speaks, then a third speak and a fourth in
its tail. -/
theorem c4_wind_down_witness :
    (aact (runActions sampleBooted [speakHi, speakHi]).1 speakHi).2 =
      AactResult.windDown
        ((runActions sampleBooted [speakHi, speakHi]).1.agent_mapping.map (fun p =>
          (p.1, { agent_name := "moderator",
                  last_turn := (runActions sampleBooted [speakHi, speakHi]).1.scenario,
                  turn_number :=
                    ((runActions sampleBooted [speakHi, speakHi]).1.turn_number : Int) + 1,
                  available_actions := [ActionType.leave] })))
    ∧ ((aact (runActions sampleBooted [speakHi, speakHi]).1 speakHi).1).turn_number =
        (runActions sampleBooted [speakHi, speakHi]).1.turn_number
    ∧ ((runActions (runActions sampleBooted [speakHi, speakHi]).1
          (speakHi :: [speakHi])).1).turn_number =
        (runActions sampleBooted [speakHi, speakHi]).1.turn_number :=
  c4_wind_down (runActions sampleBooted [speakHi, speakHi]).1 speakHi [speakHi]
    (by decide) (by decide) (by decide) (by decide)

/-- C8: a `none` action changes nothing (state identical, nothing emitted),
hence any number of `none` actions injected between two blocks of actions
leaves the resulting session state — transcript, turn counter and actor index
included — unchanged. -/
theorem c8_none_noop (s : ModeratorState) (a : AgentAction)
    (ha : a.action_type = ActionType.none)
    (xs ns ys : List AgentAction)
    (hns : ∀ b ∈ ns, b.action_type = ActionType.none) :
    aact s a = (s, AactResult.silent)
    ∧ (runActions s (xs ++ (ns ++ ys))).1 = (runActions s (xs ++ ys)).1 := by
  refine ⟨aact_none s a ha, ?_⟩
  rw [runActions_append xs (ns ++ ys) s, runActions_append ns ys,
    runActions_none_state ns _ hns, runActions_append xs ys s]

/-- C8 witness: a `none` action by A injected between two speaks on the
concrete booted session. -/
theorem c8_none_noop_witness :
    aact sampleBooted noneAct = (sampleBooted, AactResult.silent)
    ∧ (runActions sampleBooted ([speakHi] ++ ([noneAct] ++ [speakHi]))).1 =
      (runActions sampleBooted ([speakHi] ++ [speakHi])).1 :=
  c8_none_noop sampleBooted noneAct (by decide) [speakHi] [noneAct] [speakHi]
    (by decide)

/-- C10: a `leave` processed while someone else is still awake marks the
sender asleep and is then handled like a substantive action: the rendered
"left the conversation" is appended to the transcript, and with the counter
below the maximum the counter advances and a per-channel broadcast goes
out. -/
theorem c10_leave_substantive (s : ModeratorState) (a : AgentAction)
    (hl : a.action_type = ActionType.leave)
    (hwake : allAsleep (setA s.agents_awake a.agent_name false) = false)
    (hturn : s.turn_number < s.max_turns) :
    lookupA ((aact s a).1).agents_awake a.agent_name = Option.some false
    ∧ ((aact s a).1).message_history = s.message_history ++
        [[(a.agent_name, "Environment", "left the conversation")]]
    ∧ ((aact s a).1).turn_number = s.turn_number + 1
    ∧ ∃ b, (aact s a).2 = AactResult.broadcast b ∧
        b.map Prod.fst = s.agent_mapping.map Prod.fst := by
  have hnl : a.to_natural_language = "left the conversation" := by
    unfold AgentAction.to_natural_language
    rw [hl]
  have hred : aact s a =
      ({ s with
          agents_awake := setA s.agents_awake a.agent_name false
          message_history := s.message_history ++
            [[(a.agent_name, "Environment", a.to_natural_language)]]
          turn_number := s.turn_number + 1
          current_agent_index := (s.current_agent_index + 1) % s.agents.length },
        AactResult.broadcast (regularBatch { s with
          agents_awake := setA s.agents_awake a.agent_name false
          message_history := s.message_history ++
            [[(a.agent_name, "Environment", a.to_natural_language)]]
          turn_number := s.turn_number + 1 } a)) := by
    unfold aact
    simp [hl, hwake, hturn]
  rw [hred]
  refine ⟨?_, by rw [hnl], rfl, _, rfl, ?_⟩
  · exact lookupA_setA s.agents_awake a.agent_name false
  · simp [regularBatch]

/-- C10 witness: A leaving the concrete booted session while B is awake. -/
theorem c10_leave_substantive_witness :
    lookupA ((aact sampleBooted leaveA).1).agents_awake leaveA.agent_name =
      Option.some false
    ∧ ((aact sampleBooted leaveA).1).message_history =
        sampleBooted.message_history ++
          [[(leaveA.agent_name, "Environment", "left the conversation")]]
    ∧ ((aact sampleBooted leaveA).1).turn_number = sampleBooted.turn_number + 1
    ∧ ∃ b, (aact sampleBooted leaveA).2 = AactResult.broadcast b ∧
        b.map Prod.fst = sampleBooted.agent_mapping.map Prod.fst :=
  c10_leave_substantive sampleBooted leaveA (by decide) (by decide) (by decide)

/-- A dict update on a list of keyed entries built over distinct keys updates
the entry of that key pointwise. -/
theorem setA_map {α : Type} (A : List String) (f : String → α) (m : String)
    (v : α) (hm : m ∈ A) (hnd : A.Nodup) :
    setA (A.map (fun n => (n, f n))) m v =
      A.map (fun n => (n, if n = m then v else f n)) := by
  induction A with
  | nil => cases hm
  | cons a rest ih =>
    rcases List.nodup_cons.mp hnd with ⟨hnotin, hndr⟩
    by_cases h : a = m
    · subst h
      simp only [List.map_cons, setA, eq_self_iff_true, if_true]
      congr 1
      refine (List.map_congr_left ?_).symm
      intro n hn
      have hne : n ≠ a := fun he => hnotin (he ▸ hn)
      simp [hne]
    · have hm' : m ∈ rest := by
        rcases List.mem_cons.mp hm with h1 | h1
        · exact absurd h1.symm h
        · exact h1
      simp only [List.map_cons, setA]
      rw [if_neg h, if_neg h, ih hm' hndr]

/-- A dict update writing back the value already stored is the identity. -/
theorem setA_lookup_self {α : Type} (l : List (String × α)) (k : String) (v : α)
    (h : lookupA l k = Option.some v) : setA l k v = l := by
  induction l with
  | nil => simp [lookupA] at h
  | cons p rest ih =>
    by_cases hk : p.1 = k
    · simp only [lookupA, if_pos hk, Option.some.injEq] at h
      simp only [setA, if_pos hk]
      rw [← hk, ← h]
    · simp only [lookupA, if_neg hk] at h
      simp only [setA, if_neg hk]
      rw [ih h]

/-- Draining replies splits over concatenation. -/
theorem processReplies_append (xs ys : List HandshakeReply)
    (s : ModeratorState) :
    processReplies s (xs ++ ys) = processReplies (processReplies s xs) ys := by
  induction xs generalizing s with
  | nil => rfl
  | cons r rest ih => simp [processReplies, ih]

/-- Draining replies never changes the configured agent list. -/
theorem processReplies_agents (replies : List HandshakeReply)
    (s : ModeratorState) :
    (processReplies s replies).agents = s.agents := by
  induction replies generalizing s with
  | nil => rfl
  | cons r rest ih => simp [processReplies, processReply, ih]

/-- Folding the second components out of a keyed list of flags. -/
theorem all_snd_map (A : List String) (f : String → Bool) :
    ((A.map (fun n => (n, f n))).all (fun p => p.2)) = A.all f := by
  induction A with
  | nil => rfl
  | cons a rest ih => simp [List.all_cons, ih]

/-- The completion check over a keyed awake list is the conjunction of the
flags. -/
theorem bootComplete_map (A : List String) (f : String → Bool)
    (s : ModeratorState) (hawake : s.agents_awake = A.map (fun n => (n, f n))) :
    bootComplete s = A.all f := by
  simp only [bootComplete, hawake, all_snd_map]

/-- Core of the handshake argument: over distinct configured names, draining
a batch of replies (each from a configured name) completes the boot check
exactly when every configured name was already awake or sent a reply. -/
theorem processReplies_complete (A : List String) (hnd : A.Nodup) :
    ∀ (replies : List HandshakeReply) (f : String → Bool) (s : ModeratorState),
      s.agents_awake = A.map (fun n => (n, f n)) →
      (∀ r ∈ replies, r.agent_name ∈ A) →
      (bootComplete (processReplies s replies) = true ↔
        ∀ n ∈ A, f n = true ∨ ∃ r ∈ replies, r.agent_name = n) := by
  intro replies
  induction replies with
  | nil =>
    intro f s hawake _
    simp only [processReplies]
    rw [bootComplete_map A f s hawake]
    simp [List.all_eq_true]
  | cons r rest ih =>
    intro f s hawake hrep
    have hmem : r.agent_name ∈ A := hrep r (by simp)
    have hawake' : (processReply s r).agents_awake =
        A.map (fun n => (n, if n = r.agent_name then true else f n)) := by
      simp only [processReply]
      rw [hawake, setA_map A f r.agent_name true hmem hnd]
    have hrep' : ∀ r' ∈ rest, r'.agent_name ∈ A :=
      fun r' h => hrep r' (by simp [h])
    have step := ih (fun n => if n = r.agent_name then true else f n)
      (processReply s r) hawake' hrep'
    simp only [processReplies]
    rw [step]
    constructor
    · intro h n hn
      rcases h n hn with h1 | ⟨r', hr', he⟩
      · simp only [] at h1
        by_cases hnr : n = r.agent_name
        · exact Or.inr ⟨r, by simp, hnr.symm⟩
        · rw [if_neg hnr] at h1
          exact Or.inl h1
      · exact Or.inr ⟨r', by simp [hr'], he⟩
    · intro h n hn
      by_cases hnr : n = r.agent_name
      · refine Or.inl ?_
        simp only []
        rw [if_pos hnr]
      · rcases h n hn with h1 | ⟨r', hr', he⟩
        · refine Or.inl ?_
          simp only []
          rw [if_neg hnr]
          exact h1
        · rcases List.mem_cons.mp hr' with h2 | h2
          · exact absurd (h2 ▸ he) (fun hh => hnr hh.symm)
          · exact Or.inr ⟨r', h2, he⟩

/-- C7: with N configured distinct participants all starting asleep, the boot
check never passes until every configured agent_name has sent a handshake
reply, and a repeated reply from a participant already awake leaves the awake
map entirely unchanged. -/
theorem c7_handshake_completeness (s0 : ModeratorState)
    (replies : List HandshakeReply)
    (hawake : s0.agents_awake = s0.agents.map (fun n => (n, false)))
    (hnd : s0.agents.Nodup)
    (hrep : ∀ r ∈ replies, r.agent_name ∈ s0.agents) :
    (bootComplete (processReplies s0 replies) = true ↔
      ∀ n ∈ s0.agents, ∃ r ∈ replies, r.agent_name = n)
    ∧ ∀ r : HandshakeReply,
        lookupA (processReplies s0 replies).agents_awake r.agent_name =
          Option.some true →
        (processReplies s0 (replies ++ [r])).agents_awake =
          (processReplies s0 replies).agents_awake := by
  constructor
  · rw [processReplies_complete s0.agents hnd replies (fun _ => false) s0 hawake hrep]
    simp
  · intro r hlook
    rw [processReplies_append replies [r] s0]
    simp only [processReplies, processReply]
    rw [setA_lookup_self _ _ _ hlook]

/-- C7 witness: the concrete two-participant configuration with both replies
present, plus the unchanged-awake-map fact for a duplicate reply from A. -/
theorem c7_handshake_completeness_witness :
    (bootComplete (processReplies sampleInit sampleReplies) = true ↔
      ∀ n ∈ sampleInit.agents, ∃ r ∈ sampleReplies, r.agent_name = n)
    ∧ ∀ r : HandshakeReply,
        lookupA (processReplies sampleInit sampleReplies).agents_awake
            r.agent_name = Option.some true →
        (processReplies sampleInit (sampleReplies ++ [r])).agents_awake =
          (processReplies sampleInit sampleReplies).agents_awake :=
  c7_handshake_completeness sampleInit sampleReplies (by decide) (by decide)
    (by decide)

/-- A substantive action arriving below the maximum takes the regular branch:
transcript appended, counter advanced, regular broadcast emitted, actor index
rotated. -/
theorem aact_below_max (s : ModeratorState) (b : AgentAction)
    (hturn : s.turn_number < s.max_turns)
    (hn : b.action_type ≠ ActionType.none)
    (hl : b.action_type ≠ ActionType.leave) :
    aact s b =
      ({ s with
          message_history := s.message_history ++
            [[(b.agent_name, "Environment", b.to_natural_language)]]
          turn_number := s.turn_number + 1
          current_agent_index := (s.current_agent_index + 1) % s.agents.length },
        AactResult.broadcast (regularBatch { s with
          message_history := s.message_history ++
            [[(b.agent_name, "Environment", b.to_natural_language)]]
          turn_number := s.turn_number + 1 } b)) := by
  unfold aact
  simp [hl, hn, hturn]

/-- Core of the fairness argument: under round-robin, if the actor index sits
at (turn + 1) mod M, then every regular broadcast of a leave-free run offers
the full action set exactly to the participant whose configured position is
the turn number of the broadcast mod M, and `none` to everyone else. -/
theorem run_fairness_aux (A : List String) (V : List ActionType) :
    ∀ (acts : List AgentAction) (s : ModeratorState),
      s.action_order = ActionOrder.roundRobin →
      s.agents = A → s.available_actions = V →
      s.current_agent_index = (s.turn_number + 1) % A.length →
      (∀ a ∈ acts, a.action_type ≠ ActionType.leave) →
      ∀ r ∈ (runActions s acts).2, ∀ b, r = AactResult.broadcast b →
        ∀ p ∈ b, p.2.available_actions =
          (if p.2.agent_name = A.getD (p.2.turn_number.toNat % A.length) ""
           then V else [ActionType.none]) := by
  intro acts
  induction acts with
  | nil =>
    intro s _ _ _ _ _ r hr
    simp [runActions] at hr
  | cons a rest ih =>
    intro s horder hA hV hidx hnol r hr b hb p hp
    have hleave : a.action_type ≠ ActionType.leave := hnol a (by simp)
    have hrest : ∀ x ∈ rest, x.action_type ≠ ActionType.leave :=
      fun x hx => hnol x (by simp [hx])
    have hrun : (runActions s (a :: rest)).2 =
        (aact s a).2 :: (runActions (aact s a).1 rest).2 := rfl
    rw [hrun] at hr
    by_cases hn : a.action_type = ActionType.none
    · rw [aact_none s a hn] at hr
      rcases List.mem_cons.mp hr with hr1 | hr2
      · subst hr1
        cases hb
      · exact ih s horder hA hV hidx hrest r hr2 b hb p hp
    · by_cases hturn : s.turn_number < s.max_turns
      · have hstep := aact_below_max s a hturn hn hleave
        rw [hstep] at hr
        rcases List.mem_cons.mp hr with hr1 | hr2
        · subst hr1
          simp only [AactResult.broadcast.injEq] at hb
          subst hb
          simp only [regularBatch, List.mem_map] at hp
          obtain ⟨q, hq, hpq⟩ := hp
          subst hpq
          simp only [horder, hA, hV, hidx, true_and, eq_self_iff_true,
            Int.toNat_ofNat]
        · refine ih ({ s with
              message_history := s.message_history ++
                [[(a.agent_name, "Environment", a.to_natural_language)]]
              turn_number := s.turn_number + 1
              current_agent_index :=
                (s.current_agent_index + 1) % s.agents.length })
            horder hA hV ?_ hrest r hr2 b hb p hp
          show (s.current_agent_index + 1) % s.agents.length =
            (s.turn_number + 1 + 1) % A.length
          rw [hidx, hA]
          exact Nat.mod_add_mod _ _ _
      · have hmax : s.max_turns ≤ s.turn_number := Nat.le_of_not_lt hturn
        have hstep := aact_at_max s a hmax hn hleave
        rw [hstep] at hr
        rcases List.mem_cons.mp hr with hr1 | hr2
        · subst hr1
          cases hb
        · exact ih ({ s with
              message_history := s.message_history ++
                [[(a.agent_name, "Environment", a.to_natural_language)]] })
            horder hA hV hidx hrest r hr2 b hb p hp

/-- C6: over any leave-free run from a freshly booted round-robin session,
the observation batches of the turn-taking path give the full action set
exactly to the participant whose configured position equals the batch turn
number mod M and `none` to everyone else; and the boot batch (turn 0) gives
the full set exactly to the participant at position 0 mod M. -/
theorem c6_round_robin_fairness (s : ModeratorState) (acts : List AgentAction)
    (horder : s.action_order = ActionOrder.roundRobin)
    (hidx : s.current_agent_index = (s.turn_number + 1) % s.agents.length)
    (hnol : ∀ a ∈ acts, a.action_type ≠ ActionType.leave) :
    (∀ r ∈ (runActions s acts).2, ∀ b, r = AactResult.broadcast b →
      ∀ p ∈ b, p.2.available_actions =
        (if p.2.agent_name =
            s.agents.getD (p.2.turn_number.toNat % s.agents.length) "" then
          s.available_actions
         else [ActionType.none]))
    ∧ ∀ ch name, (ch, name) ∈ s.agent_mapping →
        (ch, { agent_name := "moderator", last_turn := "conversation start",
               turn_number := 0,
               available_actions :=
                 if name = s.agents.getD (0 % s.agents.length) "" then
                   s.available_actions
                 else [ActionType.none] }) ∈ bootBatch s := by
  constructor
  · exact run_fairness_aux s.agents s.available_actions acts s horder rfl rfl
      hidx hnol
  · intro ch name hmem
    rw [Nat.zero_mod]
    exact List.mem_map_of_mem _ hmem

/-- C6 witness: the fairness statement on the concrete booted two-participant
session over two speaks. -/
theorem c6_round_robin_fairness_witness :
    (∀ r ∈ (runActions sampleBooted [speakHi, speakHi]).2, ∀ b,
      r = AactResult.broadcast b →
      ∀ p ∈ b, p.2.available_actions =
        (if p.2.agent_name =
            sampleBooted.agents.getD
              (p.2.turn_number.toNat % sampleBooted.agents.length) "" then
          sampleBooted.available_actions
         else [ActionType.none]))
    ∧ ∀ ch name, (ch, name) ∈ sampleBooted.agent_mapping →
        (ch, { agent_name := "moderator", last_turn := "conversation start",
               turn_number := 0,
               available_actions :=
                 if name = sampleBooted.agents.getD
                     (0 % sampleBooted.agents.length) "" then
                   sampleBooted.available_actions
                 else [ActionType.none] }) ∈ bootBatch sampleBooted :=
  c6_round_robin_fairness sampleBooted [speakHi, speakHi] (by decide)
    (by decide) (by decide)

/-- A `leave` that puts every recorded flag to false terminates the session:
wrap-up runs on the updated state and `None` is returned. -/
theorem aact_leave_final (s : ModeratorState) (b : AgentAction)
    (hl : b.action_type = ActionType.leave)
    (hsl : allAsleep (setA s.agents_awake b.agent_name false) = true) :
    aact s b =
      ({ s with agents_awake := setA s.agents_awake b.agent_name false },
        AactResult.terminated (wrapUp
          { s with agents_awake := setA s.agents_awake b.agent_name false })) := by
  unfold aact
  simp [hl, hsl]

/-- A `leave` leaving someone awake falls through to the substantive path. -/
theorem aact_leave_nonfinal (s : ModeratorState) (b : AgentAction)
    (hl : b.action_type = ActionType.leave)
    (hwake : allAsleep (setA s.agents_awake b.agent_name false) = false) :
    aact s b =
      (if s.turn_number < s.max_turns then
        ({ s with
            agents_awake := setA s.agents_awake b.agent_name false
            message_history := s.message_history ++
              [[(b.agent_name, "Environment", b.to_natural_language)]]
            turn_number := s.turn_number + 1
            current_agent_index :=
              (s.current_agent_index + 1) % s.agents.length },
          AactResult.broadcast (regularBatch { s with
            agents_awake := setA s.agents_awake b.agent_name false
            message_history := s.message_history ++
              [[(b.agent_name, "Environment", b.to_natural_language)]]
            turn_number := s.turn_number + 1 } b))
      else
        ({ s with
            agents_awake := setA s.agents_awake b.agent_name false
            message_history := s.message_history ++
              [[(b.agent_name, "Environment", b.to_natural_language)]] },
          AactResult.windDown (windDownBatch { s with
            agents_awake := setA s.agents_awake b.agent_name false
            message_history := s.message_history ++
              [[(b.agent_name, "Environment", b.to_natural_language)]] }))) := by
  unfold aact
  simp [hl, hwake]

/-- `aact` never touches the configured agent list. -/
theorem aact_agents_eq (s : ModeratorState) (b : AgentAction) :
    ((aact s b).1).agents = s.agents := by
  unfold aact
  dsimp only
  repeat' split
  all_goals rfl

/-- On a `leave`, the awake map of the resulting state is the update marking
the sender asleep, whichever branch was taken. -/
theorem aact_awake_leave (s : ModeratorState) (b : AgentAction)
    (hl : b.action_type = ActionType.leave) :
    ((aact s b).1).agents_awake = setA s.agents_awake b.agent_name false := by
  unfold aact
  simp only [hl]
  repeat' split
  all_goals (first | rfl | simp_all)

/-- On anything but a `leave`, the awake map is untouched. -/
theorem aact_awake_other (s : ModeratorState) (b : AgentAction)
    (hl : b.action_type ≠ ActionType.leave) :
    ((aact s b).1).agents_awake = s.agents_awake := by
  unfold aact
  simp only [hl]
  repeat' split
  all_goals (first | rfl | simp_all)

theorem terminatedCount_cons_term (e : EpisodeLog) (rs : List AactResult) :
    terminatedCount (AactResult.terminated e :: rs) = terminatedCount rs + 1 := by
  simp [terminatedCount, List.filter_cons]

theorem terminatedCount_cons_silent (rs : List AactResult) :
    terminatedCount (AactResult.silent :: rs) = terminatedCount rs := by
  simp [terminatedCount, List.filter_cons]

theorem terminatedCount_cons_windDown (b : List (String × Observation))
    (rs : List AactResult) :
    terminatedCount (AactResult.windDown b :: rs) = terminatedCount rs := by
  simp [terminatedCount, List.filter_cons]

theorem terminatedCount_cons_broadcast (b : List (String × Observation))
    (rs : List AactResult) :
    terminatedCount (AactResult.broadcast b :: rs) = terminatedCount rs := by
  simp [terminatedCount, List.filter_cons]

/-- A terminating step bumps the wrap-up count by one. -/
theorem step_terminated_count (s : ModeratorState) (a : AgentAction)
    (rest : List AgentAction)
    (hl : a.action_type = ActionType.leave)
    (hsl : allAsleep (setA s.agents_awake a.agent_name false) = true) :
    terminatedCount (runActions s (a :: rest)).2 =
      terminatedCount (runActions (aact s a).1 rest).2 + 1 := by
  have hrun : (runActions s (a :: rest)).2 =
      (aact s a).2 :: (runActions (aact s a).1 rest).2 := rfl
  rw [hrun, aact_leave_final s a hl hsl]
  try dsimp only
  rw [terminatedCount_cons_term]

/-- A non-terminating step leaves the wrap-up count unchanged. -/
theorem step_other_count (s : ModeratorState) (a : AgentAction)
    (rest : List AgentAction)
    (h : ¬(a.action_type = ActionType.leave ∧
        allAsleep (setA s.agents_awake a.agent_name false) = true)) :
    terminatedCount (runActions s (a :: rest)).2 =
      terminatedCount (runActions (aact s a).1 rest).2 := by
  have hrun : (runActions s (a :: rest)).2 =
      (aact s a).2 :: (runActions (aact s a).1 rest).2 := rfl
  rw [hrun]
  by_cases hl : a.action_type = ActionType.leave
  · have hsl : allAsleep (setA s.agents_awake a.agent_name false) = false := by
      revert h
      cases allAsleep (setA s.agents_awake a.agent_name false) <;> simp [hl]
    rw [aact_leave_nonfinal s a hl hsl]
    try dsimp only
    split
    · rw [terminatedCount_cons_broadcast]
    · rw [terminatedCount_cons_windDown]
  · by_cases hn : a.action_type = ActionType.none
    · rw [aact_none s a hn]
      try dsimp only
      rw [terminatedCount_cons_silent]
    · by_cases ht : s.turn_number < s.max_turns
      · rw [aact_below_max s a ht hn hl]
        try dsimp only
        rw [terminatedCount_cons_broadcast]
      · rw [aact_at_max s a (Nat.le_of_not_lt ht) hn hl]
        try dsimp only
        rw [terminatedCount_cons_windDown]

/-- Wrap-up fires only on `leave` steps. -/
theorem terminatedCount_zero_of_no_leave :
    ∀ (acts : List AgentAction) (s : ModeratorState),
      (∀ a ∈ acts, a.action_type ≠ ActionType.leave) →
      terminatedCount (runActions s acts).2 = 0 := by
  intro acts
  induction acts with
  | nil => intro s _; rfl
  | cons a rest ih =>
    intro s hno
    rw [step_other_count s a rest (fun hc => hno a (by simp) hc.1)]
    exact ih _ (fun x hx => hno x (by simp [hx]))

/-- The awake check over a keyed flag list is the conjunction of the negated
flags. -/
theorem allAsleep_map (A : List String) (f : String → Bool) :
    allAsleep (A.map (fun n => (n, f n))) = A.all (fun n => !f n) := by
  induction A with
  | nil => rfl
  | cons a rest ih =>
    simp only [allAsleep] at ih ⊢
    simp [List.all_cons, ih]

/-- Core of the termination argument, forward and backward: starting from a
keyed awake map over distinct configured names, some step of the run
terminates the session exactly when every configured participant was already
asleep or sends a `leave` during the run. -/
theorem term_iff_aux (A : List String) (hnd : A.Nodup) :
    ∀ (acts : List AgentAction) (f : String → Bool) (s : ModeratorState),
      s.agents = A →
      s.agents_awake = A.map (fun n => (n, f n)) →
      (∀ a ∈ acts, a.agent_name ∈ A) →
      (∃ n ∈ A, f n = true) →
      (1 ≤ terminatedCount (runActions s acts).2 ↔
        ∀ n ∈ A, f n = false ∨ acts.any (isLeaveBy n) = true) := by
  intro acts
  induction acts with
  | nil =>
    intro f s _ _ _ hex
    refine iff_of_false (by simp [runActions, terminatedCount]) ?_
    rcases hex with ⟨n, hn, hf⟩
    intro h
    rcases h n hn with h1 | h2
    · rw [hf] at h1
      cases h1
    · simp at h2
  | cons a rest ih =>
    intro f s hA hawake hacts hex
    have hacts' : ∀ x ∈ rest, x.agent_name ∈ A :=
      fun x hx => hacts x (by simp [hx])
    by_cases hl : a.action_type = ActionType.leave
    · have hmem : a.agent_name ∈ A := hacts a (by simp)
      have hawake' : setA s.agents_awake a.agent_name false =
          A.map (fun n => (n, if n = a.agent_name then false else f n)) := by
        rw [hawake]
        exact setA_map A f a.agent_name false hmem hnd
      by_cases hsl : allAsleep (setA s.agents_awake a.agent_name false) = true
      · refine iff_of_true ?_ ?_
        · rw [step_terminated_count s a rest hl hsl]
          exact Nat.le_add_left 1 _
        · have h1 : A.all
              (fun n => !(if n = a.agent_name then false else f n)) = true := by
            rw [← allAsleep_map, ← hawake']
            exact hsl
          have hall : ∀ n ∈ A,
              (if n = a.agent_name then false else f n) = false := by
            intro n hn
            have h2 := List.all_eq_true.mp h1 n hn
            revert h2
            cases (if n = a.agent_name then false else f n) <;> simp
          intro n hn
          by_cases hnm : n = a.agent_name
          · right
            simp [List.any_cons, isLeaveBy, hl, hnm]
          · left
            have h2 := hall n hn
            rwa [if_neg hnm] at h2
      · have hsl' : allAsleep (setA s.agents_awake a.agent_name false) = false := by
          revert hsl
          cases allAsleep (setA s.agents_awake a.agent_name false) <;> simp
        have hex' : ∃ n ∈ A,
            (if n = a.agent_name then false else f n) = true := by
          have h1 : A.all
              (fun n => !(if n = a.agent_name then false else f n)) = false := by
            rw [← allAsleep_map, ← hawake']
            exact hsl'
          rcases List.all_eq_false.mp h1 with ⟨n, hn, hf⟩
          refine ⟨n, hn, ?_⟩
          revert hf
          cases (if n = a.agent_name then false else f n) <;> simp
        have key : ∀ n,
            ((if n = a.agent_name then false else f n) = false ∨
              rest.any (isLeaveBy n) = true) ↔
            (f n = false ∨ (a :: rest).any (isLeaveBy n) = true) := by
          intro n
          by_cases hnm : n = a.agent_name
          · simp [hnm, isLeaveBy, hl, List.any_cons]
          · simp [hnm, isLeaveBy, hl, List.any_cons, Ne.symm hnm]
        rw [step_other_count s a rest (fun hc => hsl hc.2)]
        rw [ih (fun n => if n = a.agent_name then false else f n) ((aact s a).1)
          (by rw [aact_agents_eq]; exact hA)
          (by rw [aact_awake_leave s a hl]; exact hawake')
          hacts' hex']
        constructor
        · intro hh n hn
          exact (key n).mp (hh n hn)
        · intro hh n hn
          exact (key n).mpr (hh n hn)
    · have hkey : ∀ n, isLeaveBy n a = false := by
        intro n
        simp [isLeaveBy, hl]
      rw [step_other_count s a rest (fun hc => hl hc.1)]
      rw [ih f ((aact s a).1)
        (by rw [aact_agents_eq]; exact hA)
        (by rw [aact_awake_other s a hl]; exact hawake)
        hacts' hex]
      constructor
      · intro hh n hn
        rcases hh n hn with h1 | h2
        · exact Or.inl h1
        · exact Or.inr (by simp [List.any_cons, hkey n, h2])
      · intro hh n hn
        rcases hh n hn with h1 | h2
        · exact Or.inl h1
        · refine Or.inr ?_
          revert h2
          simp [List.any_cons, hkey n]

/-- Filtering never shrinks when an element is prepended. -/
theorem length_filter_cons_le {α : Type} (p : α → Bool) (a : α) (l : List α) :
    (l.filter p).length ≤ ((a :: l).filter p).length := by
  rw [List.filter_cons]
  split
  · simp
  · exact Nat.le_refl _

/-- Core of the at-most-once argument: if no already-asleep participant ever
leaves again and each configured participant leaves at most once, wrap-up
runs at most once. -/
theorem term_le_one_aux (A : List String) (hnd : A.Nodup) :
    ∀ (acts : List AgentAction) (f : String → Bool) (s : ModeratorState),
      s.agents = A →
      s.agents_awake = A.map (fun n => (n, f n)) →
      (∀ a ∈ acts, a.agent_name ∈ A) →
      (∀ n ∈ A, f n = false → ∀ a ∈ acts, isLeaveBy n a = false) →
      (∀ n ∈ A, (acts.filter (isLeaveBy n)).length ≤ 1) →
      terminatedCount (runActions s acts).2 ≤ 1 := by
  intro acts
  induction acts with
  | nil =>
    intro f s _ _ _ _ _
    exact Nat.zero_le 1
  | cons a rest ih =>
    intro f s hA hawake hacts hdead honce
    have hacts' : ∀ x ∈ rest, x.agent_name ∈ A :=
      fun x hx => hacts x (by simp [hx])
    by_cases hl : a.action_type = ActionType.leave
    · have hmem : a.agent_name ∈ A := hacts a (by simp)
      have hla : isLeaveBy a.agent_name a = true := by simp [isLeaveBy, hl]
      have hawake' : setA s.agents_awake a.agent_name false =
          A.map (fun n => (n, if n = a.agent_name then false else f n)) := by
        rw [hawake]
        exact setA_map A f a.agent_name false hmem hnd
      have hrest_nolm : ∀ x ∈ rest, isLeaveBy a.agent_name x = false := by
        intro x hx
        by_contra hxx
        have hxx' : isLeaveBy a.agent_name x = true := by
          revert hxx
          cases isLeaveBy a.agent_name x <;> simp
        have h2 : 2 ≤ ((a :: rest).filter (isLeaveBy a.agent_name)).length := by
          rw [List.filter_cons, if_pos hla]
          have hmemf : x ∈ rest.filter (isLeaveBy a.agent_name) :=
            List.mem_filter.mpr ⟨hx, hxx'⟩
          have hpos : 0 < (rest.filter (isLeaveBy a.agent_name)).length :=
            List.length_pos.mpr (fun he => by simp [he] at hmemf)
          simp only [List.length_cons]
          omega
        have h3 := honce a.agent_name hmem
        omega
      by_cases hsl : allAsleep (setA s.agents_awake a.agent_name false) = true
      · rw [step_terminated_count s a rest hl hsl]
        have h1 : A.all
            (fun n => !(if n = a.agent_name then false else f n)) = true := by
          rw [← allAsleep_map, ← hawake']
          exact hsl
        have hall : ∀ n ∈ A,
            (if n = a.agent_name then false else f n) = false := by
          intro n hn
          have h2 := List.all_eq_true.mp h1 n hn
          revert h2
          cases (if n = a.agent_name then false else f n) <;> simp
        have hnorest : ∀ x ∈ rest, x.action_type ≠ ActionType.leave := by
          intro x hx hxl
          have hxm : x.agent_name ∈ A := hacts' x hx
          by_cases hxa : x.agent_name = a.agent_name
          · have h4 := hrest_nolm x hx
            rw [show isLeaveBy a.agent_name x = true from
              by simp [isLeaveBy, hxl, hxa]] at h4
            cases h4
          · have hfx : f x.agent_name = false := by
              have h5 := hall x.agent_name hxm
              rwa [if_neg hxa] at h5
            have h6 := hdead x.agent_name hxm hfx x (by simp [hx])
            rw [show isLeaveBy x.agent_name x = true from
              by simp [isLeaveBy, hxl]] at h6
            cases h6
        rw [terminatedCount_zero_of_no_leave rest ((aact s a).1) hnorest]
      · rw [step_other_count s a rest (fun hc => hsl hc.2)]
        refine ih (fun n => if n = a.agent_name then false else f n)
          ((aact s a).1)
          (by rw [aact_agents_eq]; exact hA)
          (by rw [aact_awake_leave s a hl]; exact hawake')
          hacts' ?_ ?_
        · intro n hn hf' x hx
          simp only [] at hf'
          by_cases hnm : n = a.agent_name
          · exact hnm ▸ hrest_nolm x hx
          · rw [if_neg hnm] at hf'
            exact hdead n hn hf' x (by simp [hx])
        · intro n hn
          have h1 := honce n hn
          have h2 := length_filter_cons_le (isLeaveBy n) a rest
          omega
    · rw [step_other_count s a rest (fun hc => hl hc.1)]
      refine ih f ((aact s a).1)
        (by rw [aact_agents_eq]; exact hA)
        (by rw [aact_awake_other s a hl]; exact hawake)
        hacts' ?_ ?_
      · intro n hn hf x hx
        exact hdead n hn hf x (by simp [hx])
      · intro n hn
        have h1 := honce n hn
        have h2 := length_filter_cons_le (isLeaveBy n) a rest
        omega

/-- C5 (amended): from a fully awake session of distinct participants whose
actions all come from configured participants, wrap-up runs at some step of
the run exactly when every configured participant sends a `leave` (the
wind-down path terminates through this same condition); and when each
participant leaves at most once, wrap-up runs at most once. -/
theorem c5_termination (s : ModeratorState) (acts : List AgentAction)
    (hawake : s.agents_awake = s.agents.map (fun n => (n, true)))
    (hnd : s.agents.Nodup) (hne : s.agents ≠ [])
    (hacts : ∀ a ∈ acts, a.agent_name ∈ s.agents)
    (honce : ∀ n ∈ s.agents, (acts.filter (isLeaveBy n)).length ≤ 1) :
    (1 ≤ terminatedCount (runActions s acts).2 ↔
      ∀ n ∈ s.agents, acts.any (isLeaveBy n) = true)
    ∧ terminatedCount (runActions s acts).2 ≤ 1 := by
  have hex : ∃ n ∈ s.agents, (fun (_ : String) => true) n = true := by
    rcases List.exists_mem_of_ne_nil s.agents hne with ⟨n, hn⟩
    exact ⟨n, hn, rfl⟩
  constructor
  · rw [term_iff_aux s.agents hnd acts (fun _ => true) s rfl hawake hacts hex]
    constructor
    · intro hh n hn
      rcases hh n hn with h1 | h2
      · cases h1
      · exact h2
    · intro hh n hn
      exact Or.inr (hh n hn)
  · refine term_le_one_aux s.agents hnd acts (fun _ => true) s rfl hawake
      hacts ?_ honce
    intro n _ hf
    cases hf

/-- C5 counterexample: on the concrete booted session, a duplicate `leave`
from B arriving after the session already terminated runs wrap-up a second
time — so "wrap-up is never run twice" fails without the
one-leave-per-participant proviso. -/
theorem c5_double_wrap_counterexample :
    terminatedCount (runActions sampleBooted [leaveA, leaveB, leaveB]).2 = 2
    ∧ ¬ terminatedCount (runActions sampleBooted [leaveA, leaveB, leaveB]).2 ≤ 1 := by
  refine ⟨by decide, by decide⟩

/-- C5 witness: the amended statement on the concrete booted session with
each participant leaving exactly once. -/
theorem c5_termination_witness :
    (1 ≤ terminatedCount (runActions sampleBooted [leaveA, leaveB]).2 ↔
      ∀ n ∈ sampleBooted.agents, [leaveA, leaveB].any (isLeaveBy n) = true)
    ∧ terminatedCount (runActions sampleBooted [leaveA, leaveB]).2 ≤ 1 :=
  c5_termination sampleBooted [leaveA, leaveB] (by decide) (by decide)
    (by decide) (by decide) (by decide)

/-- C1: with evaluation enabled and the Dummy evaluator, the terminated
episode carries the persistent ids of the participants in boot order, but its
rewards field is the single-element list wrapping the zero vector (the
`epilog.rewards = [reward]` slip in `Moderator.eval`), not the per-participant
zero-filled vector the claim states; with evaluation disabled, `save` does
produce the per-participant zero-filled vector. -/
theorem c1_eval_rewards_shape :
    (finalEpilog (runActions sampleBootedEval [leaveA, leaveB]).2).map
        EpisodeLog.agents = Option.some ["pkA", "pkB"]
    ∧ (finalEpilog (runActions sampleBootedEval [leaveA, leaveB]).2).map
        EpisodeLog.rewards = Option.some [RVal.vec [0, 0]]
    ∧ Option.some [RVal.vec [0, 0]] ≠
        Option.some [RVal.scalar 0, RVal.scalar 0]
    ∧ (finalEpilog (runActions sampleBooted [leaveA, leaveB]).2).map
        EpisodeLog.rewards = Option.some [RVal.scalar 0, RVal.scalar 0] :=
  ⟨rfl, rfl, by decide, rfl⟩

end Sotopia
